import Mathlib

/-! Shallow embedding of the reward / termination / track-generation state machine
of `gym/envs/box2d/car_racing_bezier.py` (class `CarRacingBezier` together with its
`FrictionDetector` contact listener).  Python floats are modelled as rationals,
the Box2D physics engine and the renderer are external collaborators: the effect
of `world.Step` (draining contact callbacks) is passed in as an oracle function,
and the car position after the physics advance is an oracle pair. -/

/-- Source constant `SCALE = 6.0` (track scale). -/
def SCALE : ℚ := 6

/-- Source constant `TRACK_TURN_RATE = 0.31`. -/
def TRACK_TURN_RATE : ℚ := 31 / 100

/-- Source constant `BORDER_MIN_COUNT = 4` (border lookback window). -/
def BORDER_MIN_COUNT : ℕ := 4

/-- Source constant `PLAYFIELD = 2000 / SCALE` (game-over boundary). -/
def PLAYFIELD : ℚ := 2000 / SCALE

/-- Local constant `MIN_DISTANCE_TO_GO = 10` of `FrictionDetector._eval_tile_index`. -/
def MIN_DISTANCE_TO_GO : ℚ := 10

/-- Construction-time parameters of `CarRacingBezier.__init__` that the claims need.
They are immutable over an environment's lifetime. -/
structure Config where
  lapCompletePercent : ℚ
  sparseRewards : Bool
  numGoalBins : ℕ
  clipReward : Option ℤ
  playfield : ℚ
deriving DecidableEq

/-- Mutable per-episode state of the environment object.  `visited` holds the
`road_visited` flag of each tile in track order, so `visited.length` is
`len(self.track)`.  `overlap` is the car body's `tiles` set, `goalBin` is
`self.goal_bin` (`none` models Python `None`). -/
structure EnvState where
  visited : List Bool
  reward : ℚ
  prevReward : ℚ
  tileVisitedCount : ℕ
  newLap : Bool
  overlap : List ℕ
  accumulatedRewards : ℚ
  goalReached : Bool
  goalBin : Option ℤ
deriving DecidableEq

/-- Embedding of `FrictionDetector._eval_tile_index` (sparse-reward goal check).
`index` is the contacted tile's index; `len(self.env.track)` is `s.visited.length`.
Python's `goal_bin == 0` is `False` when `goal_bin` is `None`, which the
`Option` comparisons reproduce. -/
def evalTileIndex (cfg : Config) (s : EnvState) (index : ℕ) : EnvState :=
  let trackLen : ℚ := (s.visited.length : ℚ)
  let goalStep : ℚ := trackLen / (cfg.numGoalBins : ℚ)
  let distance : ℚ := trackLen - (index : ℚ)
  let tileBin : ℤ := ⌊distance / goalStep⌋
  if s.goalBin = some 0 ∧ distance < MIN_DISTANCE_TO_GO then
    { s with goalReached := false }
  else if s.goalBin = some ((cfg.numGoalBins : ℤ) - 1) ∧ (index : ℚ) < MIN_DISTANCE_TO_GO then
    { s with goalReached := false }
  else if some tileBin = s.goalBin then
    { s with goalReached := true }
  else
    s

/-- Embedding of the `begin` branch of `FrictionDetector._contact` for a road tile
with index `index` (the bezier tile path, where `tile.idx` and the userData
`index` coincide).  `obj.tiles.add(tile)` is the `List.insert` on `overlap`;
`index >= 0` always holds for a tile that carries an index. -/
def contactBegin (cfg : Config) (s : EnvState) (index : ℕ) : EnvState :=
  let s1 : EnvState := { s with overlap := s.overlap.insert index }
  let s2 : EnvState :=
    if s1.visited.getD index false then s1
    else
      let s' : EnvState := { s1 with
        visited := s1.visited.set index true,
        reward := s1.reward + 1000 / (s1.visited.length : ℚ),
        tileVisitedCount := s1.tileVisitedCount + 1 }
      if index = 0 ∧
          cfg.lapCompletePercent < (s'.tileVisitedCount : ℚ) / (s'.visited.length : ℚ) then
        { s' with newLap := true }
      else s'
  if cfg.sparseRewards then evalTileIndex cfg s2 index else s2

/-- Embedding of the `end` branch of `FrictionDetector._contact`:
`obj.tiles.remove(tile)`. -/
def contactEnd (s : EnvState) (index : ℕ) : EnvState :=
  { s with overlap := s.overlap.erase index }

/-- A sequence of contact-begin events, drained in order during one episode. -/
def runContacts (cfg : Config) (s : EnvState) (is : List ℕ) : EnvState :=
  is.foldl (contactBegin cfg) s

/-- Embedding of `if self.clip_reward: revealed_reward = min(max(revealed_reward,
-self.clip_reward), self.clip_reward)` (lines 878-879).  Python truthiness makes
a configured bound of `0` (and `None`) skip the clamp. -/
def applyClip (clip : Option ℤ) (r : ℚ) : ℚ :=
  match clip with
  | none => r
  | some c => if c = 0 then r else min (max r (-(c : ℚ))) ((c : ℚ))

/-- Result of one `step` call: the environment state, the final value of the
Python local `step_reward`, the revealed reward that `step` returns, and the
returned `done` flag. -/
structure StepOut where
  state : EnvState
  stepReward : ℚ
  revealed : ℚ
  done : Bool
deriving DecidableEq

/-- Embedding of the sparse-versus-dense reveal block of `CarRacingBezier.step`
(lines 868-877), run on every call, with the `step_reward` and `done` locals
computed so far. -/
def sparsePhase (cfg : Config) (s : EnvState) (stepReward : ℚ) (done : Bool) : StepOut :=
  if cfg.sparseRewards then
    let s1 : EnvState := { s with accumulatedRewards := s.accumulatedRewards + stepReward }
    if s1.goalReached then
      { state := { s1 with accumulatedRewards := 0 }, stepReward := stepReward,
        revealed := s1.accumulatedRewards, done := true }
    else
      { state := s1, stepReward := stepReward, revealed := 0, done := done }
  else
    { state := s, stepReward := stepReward, revealed := stepReward, done := done }

/-- Executable embedding of Python `abs` on a rational. -/
def absQ (x : ℚ) : ℚ := if x < 0 then -x else x

theorem absQ_eq_abs (x : ℚ) : absQ x = |x| := by
  unfold absQ
  split_ifs with h
  · rw [abs_of_neg h]
  · rw [abs_of_nonneg (le_of_not_lt h)]

/-- Embedding of the reward and termination logic of `CarRacingBezier.step`
(lines 845-877), before the final reward clip.  `s` is the environment state
after the physics advance has drained its contact events, `pos` is
`self.car.hull.position`, and `actionApplied` tells whether `action is not None`. -/
def rewardCore (cfg : Config) (s : EnvState) (actionApplied : Bool) (pos : ℚ × ℚ) : StepOut :=
  if actionApplied then
    let s1 : EnvState := { s with reward := s.reward - 1 / 10 }
    let stepReward : ℚ := s1.reward - s1.prevReward
    let s2 : EnvState := { s1 with prevReward := s1.reward }
    let done1 : Bool := decide (s2.tileVisitedCount = s2.visited.length) || s2.newLap
    let oob : Bool := decide (cfg.playfield < absQ pos.1 ∨ cfg.playfield < absQ pos.2)
    sparsePhase cfg s2 (if oob then -100 else stepReward) (if oob then true else done1)
  else
    sparsePhase cfg s 0 false

/-- One full reward phase of `CarRacingBezier.step` (lines 845-879): the core
logic followed by the optional reward clip, which the source applies last. -/
def rewardPhase (cfg : Config) (s : EnvState) (actionApplied : Bool) (pos : ℚ × ℚ) : StepOut :=
  let core := rewardCore cfg s actionApplied pos
  { core with revealed := applyClip cfg.clipReward core.revealed }

/-- Action argument of `step`: Python `None`, a continuous steer/gas/brake
triple, or a discrete action (the `continuous` flag of the environment selects
which non-`None` constructor can occur). -/
inductive Act where
  | noAct : Act
  | contAct (steer gas brake : ℚ) : Act
  | discAct (a : ℤ) : Act

/-- Embedding of `CarRacingBezier.step`.  `physics` is the external oracle for
`self.car.step`, `self.world.Step` and the contact callbacks they drain; `pos`
is the car position it produces.  A discrete action outside
`spaces.Discrete(5)` raises `InvalidAction` before any physics stepping: the
`Except.error` carries the environment state unchanged at the raise. -/
def stepFull (cfg : Config) (s : EnvState) (act : Act) (physics : EnvState → EnvState)
    (pos : ℚ × ℚ) : Except EnvState StepOut :=
  match act with
  | Act.noAct => Except.ok (rewardPhase cfg (physics s) false pos)
  | Act.contAct _ _ _ => Except.ok (rewardPhase cfg (physics s) true pos)
  | Act.discAct a =>
      if 0 ≤ a ∧ a < 5 then Except.ok (rewardPhase cfg (physics s) true pos)
      else Except.error s

/-- Embedding of `CarRacingBezier.set_goal`.  `draw` models the value of
`self.np_random.randint(1, self.num_goal_bins)` consumed when a fresh random
bin is drawn. -/
def set_goal (s : EnvState) (goalBin : Option ℤ) (draw : ℤ) : EnvState :=
  let gb : Option ℤ :=
    match goalBin with
    | none => s.goalBin
    | some g => some g
  match gb with
  | none => { s with goalBin := some draw, goalReached := false }
  | some g => { s with goalBin := some g, goalReached := false }

/-- Options mapping passed to `reset`.  The claims mention a `goal_bin` entry,
so the embedding carries one; the source only ever reads the `randomize` entry
(for color randomization, outside this data model). -/
structure ResetOptions where
  randomize : Option Bool
  goalBin : Option ℤ
deriving DecidableEq

/-- Embedding of the episode-state effect of `CarRacingBezier.reset` (lines
788-819): counters zeroed, a fresh track of `newTrackLen` unvisited tiles, the
car's overlap set rebuilt, `self.goal_bin = None`, then `reset_sparse_state`
(which in sparse mode zeroes the accumulator and calls `set_goal()` with no
argument, consuming the random draw `draw`).  The source never reads `opts`
for the goal bin. -/
def reset_env (cfg : Config) (s : EnvState) (opts : ResetOptions) (newTrackLen : ℕ)
    (draw : ℤ) : EnvState :=
  let s1 : EnvState := { s with
    reward := 0, prevReward := 0, tileVisitedCount := 0, newLap := false,
    visited := List.replicate newTrackLen false, overlap := [], goalBin := none }
  if cfg.sparseRewards then set_goal { s1 with accumulatedRewards := 0 } none draw
  else s1

/-- Cyclic index: Python's negative-index access `l[i]` for `-len l ≤ i`, written
with a true modulus (the source only ever offsets back by at most
`BORDER_MIN_COUNT`, so the two agree once `BORDER_MIN_COUNT ≤ len l`). -/
def cycIdx (n : ℕ) (i : ℤ) : ℕ := (i % (n : ℤ)).toNat

/-- Cyclic lookup of a beta value in the track list. -/
def cycGet (l : List ℚ) (i : ℤ) : ℚ := l.getD (cycIdx l.length i) 0

/-- Embedding of `np.sign` on a rational. -/
def signQ (x : ℚ) : ℚ := if 0 < x then 1 else if x < 0 then -1 else 0

/-- Embedding of the border detection pass at one tile index (the
`good`/`oneside` loop shared by `_create_track_bezier` and
`_create_track_polar`, with the turn threshold abstracted: the bezier variant
passes `mean_abs_dbeta`, the polar variant `TRACK_TURN_RATE * 0.2`). -/
def borderDetectAt (betas : List ℚ) (threshold : ℚ) (i : ℕ) : Bool :=
  let p : Bool × ℚ := (List.range BORDER_MIN_COUNT).foldl
    (fun (p : Bool × ℚ) neg =>
      let beta1 := cycGet betas ((i : ℤ) - (neg : ℤ))
      let beta2 := cycGet betas ((i : ℤ) - (neg : ℤ) - 1)
      (p.1 && decide (threshold < |beta1 - beta2|), p.2 + signQ (beta1 - beta2)))
    (true, 0)
  p.1 && decide (|p.2| = (BORDER_MIN_COUNT : ℚ))

/-- One inner assignment `border[i - neg] |= border[i]` of the dilation loop. -/
def dilFun (i : ℕ) (acc : List Bool) (neg : ℕ) : List Bool :=
  let j := cycIdx acc.length ((i : ℤ) - (neg : ℤ))
  acc.set j (acc.getD j false || acc.getD i false)

/-- One outer iteration of the in-place backward dilation loop
`for neg in range(BORDER_MIN_COUNT): border[i - neg] |= border[i]`. -/
def dilateStep (acc : List Bool) (i : ℕ) : List Bool :=
  (List.range BORDER_MIN_COUNT).foldl (dilFun i) acc

/-- Embedding of the full border-flag computation of the track creators:
the detection pass followed by the sequential in-place dilation pass. -/
def borderFlags (betas : List ℚ) (threshold : ℚ) : List Bool :=
  (List.range betas.length).foldl dilateStep
    ((List.range betas.length).map (borderDetectAt betas threshold))

/-- The dilation invariant exactly as the claim states it of the final
border-flag array: every flagged index has its whole backward
`BORDER_MIN_COUNT` window (cyclically) flagged. -/
def dilationInvariant (b : List Bool) : Prop :=
  ∀ i, i < b.length → b.getD i false = true →
    ∀ k, k < BORDER_MIN_COUNT → b.getD (cycIdx b.length ((i : ℤ) - (k : ℤ))) false = true

instance (b : List Bool) : Decidable (dilationInvariant b) := by
  unfold dilationInvariant
  infer_instance

/-- Fuel-indexed unfolding of a `while True` retry loop over `_create_track_polar`
calls.  `attempts k` is the external oracle telling whether the `k`-th call (in
program order) returns a track; `some k` means the loop returns after the call
numbered `k` succeeds, `none` means the loop has not returned within `fuel`
iterations. -/
def fallbackLoop (attempts : ℕ → Bool) : ℕ → ℕ → Option ℕ
  | _, 0 => none
  | k, fuel + 1 => if attempts k then some k else fallbackLoop attempts (k + 1) fuel

/-- Embedding of the polar branch of `CarRacingBezier._create_track` (lines
396-418): the first `while` loop makes at most 10 calls with the caller's
control points (`t` runs 1..10 before `t > 10` breaks), and if none succeeds the
second `while True` loop keeps calling `_create_track_polar()` without control
points, with no exit other than success; `fuel` bounds how far that second loop
is unrolled. -/
def createTrackPolarAttempts (attempts : ℕ → Bool) (fuel : ℕ) : Option ℕ :=
  match fallbackLoop attempts 0 10 with
  | some i => some i
  | none => fallbackLoop attempts 10 fuel

/-- A concrete default configuration used by witnesses and counterexamples:
the constructor defaults `lap_complete_percent=0.95`, dense rewards,
`num_goal_bins=24`, no reward clip, `playfield = PLAYFIELD`. -/
def cfgBase : Config :=
  { lapCompletePercent := 95 / 100, sparseRewards := false, numGoalBins := 24,
    clipReward := none, playfield := PLAYFIELD }

/-- The default configuration with sparse rewards enabled. -/
def cfgSparse : Config := { cfgBase with sparseRewards := true }

/-- A concrete one-tile fresh episode state used by witnesses. -/
def sBase : EnvState :=
  { visited := [false], reward := 0, prevReward := 0, tileVisitedCount := 0,
    newLap := false, overlap := [], accumulatedRewards := 0, goalReached := false,
    goalBin := none }

theorem sparsePhase_stepReward (cfg : Config) (s : EnvState) (r : ℚ) (d : Bool) :
    (sparsePhase cfg s r d).stepReward = r := by
  simp only [sparsePhase]
  split_ifs <;> rfl

theorem sparsePhase_done_true (cfg : Config) (s : EnvState) (r : ℚ) :
    (sparsePhase cfg s r true).done = true := by
  simp only [sparsePhase]
  split_ifs <;> rfl

theorem rewardPhase_stepReward (cfg : Config) (s : EnvState) (a : Bool) (pos : ℚ × ℚ) :
    (rewardPhase cfg s a pos).stepReward = (rewardCore cfg s a pos).stepReward := rfl

theorem rewardPhase_done (cfg : Config) (s : EnvState) (a : Bool) (pos : ℚ × ℚ) :
    (rewardPhase cfg s a pos).done = (rewardCore cfg s a pos).done := rfl

theorem rewardPhase_state (cfg : Config) (s : EnvState) (a : Bool) (pos : ℚ × ℚ) :
    (rewardPhase cfg s a pos).state = (rewardCore cfg s a pos).state := rfl

theorem rewardPhase_revealed (cfg : Config) (s : EnvState) (a : Bool) (pos : ℚ × ℚ) :
    (rewardPhase cfg s a pos).revealed
      = applyClip cfg.clipReward (rewardCore cfg s a pos).revealed := rfl

theorem rewardCore_clip_irrel (cfg : Config) (clip : Option ℤ) (s : EnvState) (a : Bool)
    (pos : ℚ × ℚ) :
    rewardCore { cfg with clipReward := clip } s a pos = rewardCore cfg s a pos := rfl

theorem rewardCore_oob (cfg : Config) (s : EnvState) (pos : ℚ × ℚ)
    (h : cfg.playfield < |pos.1| ∨ cfg.playfield < |pos.2|) :
    (rewardCore cfg s true pos).stepReward = -100 ∧ (rewardCore cfg s true pos).done = true := by
  have hd : decide (cfg.playfield < absQ pos.1 ∨ cfg.playfield < absQ pos.2) = true := by
    rw [absQ_eq_abs, absQ_eq_abs]
    exact decide_eq_true h
  simp only [rewardCore, hd, if_true]
  exact ⟨sparsePhase_stepReward _ _ _ _, sparsePhase_done_true _ _ _⟩

theorem fallbackLoop_eq_some (attempts : ℕ → Bool) (fuel : ℕ) :
    ∀ k m : ℕ, (fallbackLoop attempts k fuel = some m ↔
      (attempts m = true ∧ k ≤ m ∧ m - k < fuel ∧
        ∀ j, k ≤ j → j < m → attempts j = false)) := by
  induction fuel with
  | zero =>
    intro k m
    simp [fallbackLoop]
  | succ fuel ih =>
    intro k m
    by_cases hk : attempts k = true
    · simp only [fallbackLoop, hk, if_true]
      constructor
      · intro h
        have hm : k = m := by injection h
        subst hm
        exact ⟨hk, Nat.le_refl _, by omega, fun j h1 h2 => absurd h2 (by omega)⟩
      · rintro ⟨h1, h2, _, h4⟩
        by_cases hm : m = k
        · rw [hm]
        · have hf : attempts k = false := h4 k (Nat.le_refl _) (by omega)
          rw [hk] at hf
          exact absurd hf (by decide)
    · have hk' : attempts k = false := by
        revert hk
        cases attempts k <;> simp
      simp only [fallbackLoop, hk', if_false, Bool.false_eq_true]
      rw [ih (k + 1) m]
      constructor
      · rintro ⟨h1, h2, h3, h4⟩
        refine ⟨h1, by omega, by omega, fun j hj1 hj2 => ?_⟩
        by_cases hj : j = k
        · rw [hj]
          exact hk'
        · exact h4 j (by omega) hj2
      · rintro ⟨h1, h2, h3, h4⟩
        have hmk : m ≠ k := by
          intro he
          rw [he, hk'] at h1
          exact absurd h1 (by decide)
        exact ⟨h1, by omega, by omega, fun j hj1 hj2 => h4 j (by omega) hj2⟩

theorem fallbackLoop_eq_none (attempts : ℕ → Bool) (fuel : ℕ) :
    ∀ k : ℕ, (fallbackLoop attempts k fuel = none ↔
      ∀ j, k ≤ j → j - k < fuel → attempts j = false) := by
  induction fuel with
  | zero =>
    intro k
    simp [fallbackLoop]
  | succ fuel ih =>
    intro k
    by_cases hk : attempts k = true
    · simp only [fallbackLoop, hk, if_true]
      constructor
      · intro h
        exact absurd h (by simp)
      · intro h
        have hf : attempts k = false := h k (Nat.le_refl _) (by omega)
        rw [hk] at hf
        exact absurd hf (by decide)
    · have hk' : attempts k = false := by
        revert hk
        cases attempts k <;> simp
      simp only [fallbackLoop, hk', if_false, Bool.false_eq_true]
      rw [ih (k + 1)]
      constructor
      · intro h j hj1 hj2
        by_cases hj : j = k
        · rw [hj]
          exact hk'
        · exact h j (by omega) (by omega)
      · intro h j hj1 hj2
        exact h j (by omega) (by omega)

/-- C2 amended: the polar branch of `_create_track` makes up to 10 attempts with
the caller's control points and then falls back to an unbounded retry loop of
unconstrained attempts: for any fuel bound, the composite returns the first
successful attempt overall (whether inside or after the bounded phase) whenever
that attempt is reached within the fuel, and there is no failure outcome — the
fallback is retried indefinitely rather than being a fatal single shot. -/
theorem createTrackPolarAttempts_characterization (attempts : ℕ → Bool) (fuel m : ℕ) :
    createTrackPolarAttempts attempts fuel = some m ↔
      (attempts m = true ∧ (∀ j, j < m → attempts j = false) ∧
        (m < 10 ∨ m - 10 < fuel)) := by
  unfold createTrackPolarAttempts
  cases h10 : fallbackLoop attempts 0 10 with
  | some i =>
    rw [fallbackLoop_eq_some] at h10
    obtain ⟨hi1, _, hi3, hi4⟩ := h10
    constructor
    · intro h
      have him : i = m := by injection h
      subst him
      exact ⟨hi1, fun j hj => hi4 j (Nat.zero_le _) hj, Or.inl (by omega)⟩
    · rintro ⟨h1, h2, _⟩
      by_cases hmi : m = i
      · rw [hmi]
      · exfalso
        rcases Nat.lt_or_ge i m with hlt | hge
        · have hf := h2 i hlt
          rw [hi1] at hf
          exact absurd hf (by decide)
        · have hmi' : m < i := by omega
          have hf := hi4 m (Nat.zero_le _) hmi'
          rw [h1] at hf
          exact absurd hf (by decide)
  | none =>
    have hnone : ∀ j, j < 10 → attempts j = false := by
      intro j hj
      exact (fallbackLoop_eq_none attempts 10 0).mp h10 j (Nat.zero_le _) (by omega)
    rw [fallbackLoop_eq_some]
    constructor
    · rintro ⟨h1, h2, h3, h4⟩
      refine ⟨h1, fun j hj => ?_, Or.inr h3⟩
      by_cases hj10 : j < 10
      · exact hnone j hj10
      · exact h4 j (by omega) hj
    · rintro ⟨h1, h2, h3⟩
      have hm10 : 10 ≤ m := by
        by_contra hc
        have hf := hnone m (by omega)
        rw [h1] at hf
        exact absurd hf (by decide)
      rcases h3 with h3 | h3
      · omega
      · exact ⟨h1, hm10, h3, fun j hj1 hj2 => h2 j hj2⟩

/-- Counterexample to C2 as stated: when the first ten constrained attempts and
the first unconstrained fallback attempt (attempt 10) all fail, the claimed
behaviour is a fatal reset failure; the code instead keeps retrying the
fallback — here attempt 11 succeeds and `_create_track` returns that track. -/
theorem polar_fallback_retries_cex :
    createTrackPolarAttempts (fun n => n == 11) 20 = some 11 ∧
    (∀ j, j < 11 → (fun n => n == 11) j = false) := by
  constructor
  · rfl
  · decide

/-- C5: with a discrete action space, an action outside {0,1,2,3,4} makes `step`
raise `InvalidAction` before any physics stepping — the result is the error for
every physics oracle, never consulting it — and the episode state (counters,
rewards, visitation flags) is returned unchanged inside the error. -/
theorem invalid_discrete_action_spec (cfg : Config) (s : EnvState) (a : ℤ)
    (physics : EnvState → EnvState) (pos : ℚ × ℚ) (h : ¬(0 ≤ a ∧ a < 5)) :
    stepFull cfg s (Act.discAct a) physics pos = Except.error s := by
  simp only [stepFull]
  rw [if_neg h]

theorem invalid_discrete_action_spec_witness :
    ¬((0 : ℤ) ≤ 7 ∧ (7 : ℤ) < 5) ∧
    stepFull cfgBase sBase (Act.discAct 7) id (0, 0) = Except.error sBase :=
  ⟨by decide, invalid_discrete_action_spec cfgBase sBase 7 id (0, 0) (by decide)⟩

/-- C6: on a step with an action applied, if the car position magnitude exceeds
the playfield half-extent on either axis then the step returns normally (a
defined terminal outcome, not an error), the Python local `step_reward` is
forced to -100, and `done` is returned `True`. -/
theorem out_of_bounds_termination_spec (cfg : Config) (s : EnvState)
    (physics : EnvState → EnvState) (pos : ℚ × ℚ) (st gas br : ℚ)
    (h : cfg.playfield < |pos.1| ∨ cfg.playfield < |pos.2|) :
    stepFull cfg s (Act.contAct st gas br) physics pos
      = Except.ok (rewardPhase cfg (physics s) true pos) ∧
    (rewardPhase cfg (physics s) true pos).stepReward = -100 ∧
    (rewardPhase cfg (physics s) true pos).done = true := by
  obtain ⟨h1, h2⟩ := rewardCore_oob cfg (physics s) pos h
  exact ⟨rfl, by rw [rewardPhase_stepReward, h1], by rw [rewardPhase_done, h2]⟩

theorem out_of_bounds_termination_spec_witness :
    (cfgBase.playfield < |((400, 0) : ℚ × ℚ).1| ∨ cfgBase.playfield < |((400, 0) : ℚ × ℚ).2|) ∧
    (rewardPhase cfgBase sBase true (400, 0)).stepReward = -100 ∧
    (rewardPhase cfgBase sBase true (400, 0)).done = true := by
  have hb : cfgBase.playfield < |((400, 0) : ℚ × ℚ).1| ∨ cfgBase.playfield < |((400, 0) : ℚ × ℚ).2| := by
    left
    norm_num [cfgBase, PLAYFIELD, SCALE]
  refine ⟨hb, ?_, ?_⟩
  · exact (out_of_bounds_termination_spec cfgBase sBase id (400, 0) 0 0 0 hb).2.1
  · exact (out_of_bounds_termination_spec cfgBase sBase id (400, 0) 0 0 0 hb).2.2

/-- Counterexample to C8 as stated: with a configured clip bound of 0 the code's
truthiness test `if self.clip_reward:` skips clamping entirely, so the revealed
reward of an ordinary penalized step is -0.1, far outside the claimed interval
[-0, +0]. -/
theorem clip_zero_cex :
    ({ cfgBase with clipReward := some 0 } : Config).clipReward = some 0 ∧
    (rewardPhase { cfgBase with clipReward := some 0 } sBase true (0, 0)).revealed = -(1 / 10) ∧
    ¬(|(-(1 / 10) : ℚ)| ≤ ((0 : ℤ) : ℚ)) := by
  refine ⟨rfl, by with_unfolding_all decide, by norm_num⟩

/-- C8 amended: for every configured nonzero clip bound c the revealed reward is
`min(max(r, -c), c)` of the reward r computed by all other rules (the unclipped
run), the clip changes nothing but the revealed reward, and a configured bound
of 0 disables clipping (it behaves exactly like no bound). -/
theorem clip_reward_spec (cfg : Config) (s : EnvState) (applied : Bool) (pos : ℚ × ℚ)
    (c : ℤ) (hc : cfg.clipReward = some c) (hc0 : c ≠ 0) :
    (rewardPhase cfg s applied pos).revealed =
      min (max ((rewardPhase { cfg with clipReward := none } s applied pos).revealed)
        (-(c : ℚ))) ((c : ℚ)) ∧
    (rewardPhase cfg s applied pos).state =
      (rewardPhase { cfg with clipReward := none } s applied pos).state ∧
    (rewardPhase cfg s applied pos).done =
      (rewardPhase { cfg with clipReward := none } s applied pos).done ∧
    rewardPhase { cfg with clipReward := some 0 } s applied pos =
      rewardPhase { cfg with clipReward := none } s applied pos := by
  refine ⟨?_, rfl, rfl, rfl⟩
  rw [rewardPhase_revealed, rewardPhase_revealed, hc]
  have h1 : rewardCore { cfg with clipReward := none } s applied pos
      = rewardCore cfg s applied pos := rewardCore_clip_irrel cfg none s applied pos
  rw [h1]
  simp [applyClip, hc0]

theorem clip_reward_spec_witness :
    ({ cfgBase with clipReward := some 5 } : Config).clipReward = some 5 ∧ (5 : ℤ) ≠ 0 ∧
    (rewardPhase { cfgBase with clipReward := some 5 } sBase true (0, 0)).revealed =
      min (max ((rewardPhase { { cfgBase with clipReward := some 5 } with clipReward := none }
        sBase true (0, 0)).revealed) (-((5 : ℤ) : ℚ))) (((5 : ℤ) : ℚ)) :=
  ⟨rfl, by decide,
    (clip_reward_spec { cfgBase with clipReward := some 5 } sBase true (0, 0) 5 rfl
      (by decide)).1⟩

/-- Counterexample to C9 as stated: a reset whose options mapping supplies
`goal_bin = 5` still redraws the bin randomly — with random draw 3 the active
goal bin after the reset is 3, not the supplied 5.  The source's `reset` never
reads a `goal_bin` option. -/
theorem reset_goal_bin_option_cex :
    (reset_env cfgSparse sBase { randomize := none, goalBin := some 5 } 24 3).goalBin
      = some 3 ∧ some (3 : ℤ) ≠ some (5 : ℤ) :=
  ⟨rfl, by decide⟩

/-- C9 amended: `reset` ignores any goal-bin entry of the options mapping: in
sparse mode it always clears the bin and redraws (`set_goal()` with the fresh
random draw), so the post-reset bin is the draw for every options value; the
explicit override the spec describes exists only as a direct `set_goal(g)`
call, which does set the bin to g. -/
theorem reset_goal_bin_spec (cfg : Config) (s : EnvState) (opts : ResetOptions)
    (n : ℕ) (draw g : ℤ) (hs : cfg.sparseRewards = true) :
    (reset_env cfg s opts n draw).goalBin = some draw ∧
    (set_goal s (some g) draw).goalBin = some g := by
  refine ⟨?_, rfl⟩
  simp only [reset_env, hs, if_true]
  rfl

theorem reset_goal_bin_spec_witness :
    cfgSparse.sparseRewards = true ∧
    (reset_env cfgSparse sBase { randomize := none, goalBin := none } 24 7).goalBin
      = some 7 :=
  ⟨rfl, (reset_goal_bin_spec cfgSparse sBase { randomize := none, goalBin := none }
    24 7 2 rfl).1⟩

/-- Counterexample to C10 as stated: with a configured negative clip bound (-5),
a dense-mode step with action None returns revealed reward -5, not 0 — the clip
formula `min(max(0, 5), -5)` collapses to the bound. -/
theorem none_step_negative_clip_cex :
    ({ cfgBase with clipReward := some (-5) } : Config).sparseRewards = false ∧
    stepFull { cfgBase with clipReward := some (-5) } sBase Act.noAct id (0, 0)
      = Except.ok (rewardPhase { cfgBase with clipReward := some (-5) } sBase false (0, 0)) ∧
    (rewardPhase { cfgBase with clipReward := some (-5) } sBase false (0, 0)).revealed
      = -5 := by
  refine ⟨rfl, rfl, by decide⟩

/-- C10 amended: for a step with action None in dense mode, provided the
configured clip bound (if any) is nonnegative, the revealed reward is exactly 0
and done is False, for every physics outcome and car position: the penalty, the
completion check and the out-of-bounds check are all skipped, and the state is
exactly the post-physics state. -/
theorem none_step_spec (cfg : Config) (s : EnvState) (physics : EnvState → EnvState)
    (pos : ℚ × ℚ) (hd : cfg.sparseRewards = false)
    (hclip : ∀ c : ℤ, cfg.clipReward = some c → 0 ≤ c) :
    stepFull cfg s Act.noAct physics pos =
      Except.ok { state := physics s, stepReward := 0, revealed := 0, done := false } := by
  have hcore : rewardCore cfg (physics s) false pos =
      { state := physics s, stepReward := 0, revealed := 0, done := false } := by
    simp only [rewardCore, sparsePhase, hd, Bool.false_eq_true, if_false]
  have happly : applyClip cfg.clipReward 0 = 0 := by
    cases hcl : cfg.clipReward with
    | none => rfl
    | some c =>
      have hc := hclip c hcl
      by_cases h0 : c = 0
      · simp [applyClip, h0]
      · have h2 : (0 : ℚ) ≤ (c : ℚ) := by exact_mod_cast hc
        have h1 : (-(c : ℚ)) ≤ 0 := by linarith
        simp [applyClip, h0, max_eq_left h1, min_eq_left h2]
  simp only [stepFull, rewardPhase, hcore, happly]

theorem none_step_spec_witness :
    cfgBase.sparseRewards = false ∧
    stepFull cfgBase sBase Act.noAct id (0, 0) =
      Except.ok { state := sBase, stepReward := 0, revealed := 0, done := false } :=
  ⟨rfl, none_step_spec cfgBase sBase id (0, 0) rfl
    (fun c hc => by simp [cfgBase] at hc)⟩

theorem list_getD_set_self (l : List Bool) (i : ℕ) (v : Bool) (h : i < l.length) :
    (l.set i v).getD i false = v := by
  induction l generalizing i with
  | nil => simp at h
  | cons a t ih =>
    cases i with
    | zero => rfl
    | succ n => simpa using ih n (by simpa using h)

theorem list_getD_set_ne (l : List Bool) (i j : ℕ) (v : Bool) (h : i ≠ j) :
    (l.set i v).getD j false = l.getD j false := by
  induction l generalizing i j with
  | nil => rfl
  | cons a t ih =>
    cases i with
    | zero =>
      cases j with
      | zero => exact absurd rfl h
      | succ m => rfl
    | succ n =>
      cases j with
      | zero => rfl
      | succ m => simpa using ih n m (by omega)

theorem list_count_set_true (l : List Bool) (i : ℕ) (h : i < l.length)
    (hf : l.getD i false = false) :
    (l.set i true).count true = l.count true + 1 := by
  induction l generalizing i with
  | nil => simp at h
  | cons a t ih =>
    cases i with
    | zero =>
      have ha : a = false := hf
      subst ha
      simp [List.count_cons]
    | succ n =>
      have hrec := ih n (by simpa using h) (by simpa using hf)
      simp only [List.set, List.count_cons, hrec]
      omega

theorem list_count_true_of_all (l : List Bool)
    (h : ∀ i, i < l.length → l.getD i false = true) :
    l.count true = l.length := by
  induction l with
  | nil => rfl
  | cons a t ih =>
    have ha : a = true := h 0 (by simp)
    subst ha
    have hrec := ih (fun i hi => by simpa using h (i + 1) (by simpa using hi))
    simp [List.count_cons, hrec]

theorem list_count_true_replicate (n : ℕ) : (List.replicate n false).count true = 0 := by
  induction n with
  | zero => rfl
  | succ m ih => simpa [List.replicate, List.count_cons] using ih

theorem evalTileIndex_fields (cfg : Config) (s : EnvState) (i : ℕ) :
    (evalTileIndex cfg s i).visited = s.visited ∧
    (evalTileIndex cfg s i).reward = s.reward ∧
    (evalTileIndex cfg s i).tileVisitedCount = s.tileVisitedCount ∧
    (evalTileIndex cfg s i).newLap = s.newLap := by
  simp only [evalTileIndex]
  split_ifs <;> exact ⟨rfl, rfl, rfl, rfl⟩

theorem contactBegin_of_visited (cfg : Config) (s : EnvState) (i : ℕ)
    (h : s.visited.getD i false = true) :
    (contactBegin cfg s i).visited = s.visited ∧
    (contactBegin cfg s i).reward = s.reward ∧
    (contactBegin cfg s i).tileVisitedCount = s.tileVisitedCount ∧
    (contactBegin cfg s i).newLap = s.newLap := by
  simp only [contactBegin]
  rw [if_pos (show ({ s with overlap := s.overlap.insert i } : EnvState).visited.getD i false
    = true from h)]
  by_cases hs : cfg.sparseRewards = true
  · rw [if_pos hs]
    obtain ⟨e1, e2, e3, e4⟩ :=
      evalTileIndex_fields cfg { s with overlap := s.overlap.insert i } i
    exact ⟨e1, e2, e3, e4⟩
  · rw [if_neg hs]
    exact ⟨rfl, rfl, rfl, rfl⟩

theorem contactBegin_of_unvisited (cfg : Config) (s : EnvState) (i : ℕ)
    (h : s.visited.getD i false = false) :
    (contactBegin cfg s i).visited = s.visited.set i true ∧
    (contactBegin cfg s i).reward = s.reward + 1000 / (s.visited.length : ℚ) ∧
    (contactBegin cfg s i).tileVisitedCount = s.tileVisitedCount + 1 ∧
    (contactBegin cfg s i).newLap =
      (if i = 0 ∧ cfg.lapCompletePercent <
          ((s.tileVisitedCount + 1 : ℕ) : ℚ) / ((s.visited.set i true).length : ℚ)
        then true else s.newLap) := by
  have hne : ¬(({ s with overlap := s.overlap.insert i } : EnvState).visited.getD i false
      = true) := by
    intro hx
    have hx' : s.visited.getD i false = true := hx
    rw [h] at hx'
    exact Bool.false_ne_true hx'
  simp only [contactBegin]
  rw [if_neg hne]
  split_ifs with h1 h2 h3
  · refine ⟨?_, ?_, ?_, ?_⟩
    · rw [(evalTileIndex_fields cfg _ i).1]
    · rw [(evalTileIndex_fields cfg _ i).2.1]
    · rw [(evalTileIndex_fields cfg _ i).2.2.1]
    · rw [(evalTileIndex_fields cfg _ i).2.2.2]
  · refine ⟨?_, ?_, ?_, ?_⟩
    · rw [(evalTileIndex_fields cfg _ i).1]
    · rw [(evalTileIndex_fields cfg _ i).2.1]
    · rw [(evalTileIndex_fields cfg _ i).2.2.1]
    · rw [(evalTileIndex_fields cfg _ i).2.2.2]
  · exact ⟨rfl, rfl, rfl, rfl⟩
  · exact ⟨rfl, rfl, rfl, rfl⟩

/-- A concrete sparse-mode episode state with 24 unvisited tiles and active goal
bin 5, used by the sparse-goal theorems. -/
def sGoal : EnvState :=
  { visited := List.replicate 24 false, reward := 0, prevReward := 0, tileVisitedCount := 0,
    newLap := false, overlap := [], accumulatedRewards := 0, goalReached := false,
    goalBin := some 5 }

/-- Counterexample to C3 as stated: the claim's "goal is reached iff the tile's
bucket equals the active goal bin" fails in the only-if direction.  With goal
bin 5 on a 24-tile track (bucket width 1), contacting tile 2 (bucket 22, not 5,
and neither guard applies since the bin is neither 0 nor 23) leaves a
previously-set goal-reached flag at `true`: the code has no else-branch that
clears the flag on a non-matching bucket. -/
theorem eval_tile_index_sticky_cex :
    sGoal.goalBin ≠ some 0 ∧
    sGoal.goalBin ≠ some ((cfgSparse.numGoalBins : ℤ) - 1) ∧
    some ⌊((sGoal.visited.length : ℚ) - ((2 : ℕ) : ℚ)) /
        ((sGoal.visited.length : ℚ) / (cfgSparse.numGoalBins : ℚ))⌋ ≠ sGoal.goalBin ∧
    (evalTileIndex cfgSparse { sGoal with goalReached := true } 2).goalReached = true := by
  refine ⟨by with_unfolding_all decide, by with_unfolding_all decide,
    by with_unfolding_all decide, by with_unfolding_all decide⟩

/-- C3 amended: per contact-begin of tile `index` in sparse mode, with
`distance = track_len - index` and bucket `floor(distance / (track_len /
num_goal_bins))`: the two guards force goal-not-reached exactly as claimed; in
the remaining case the goal becomes reached if the bucket equals the active
bin, while a non-matching bucket leaves the goal-reached flag unchanged (it
does not clear a previously reached goal, contrary to the claim's "iff"). -/
theorem eval_tile_index_spec (cfg : Config) (s : EnvState) (index : ℕ) :
    ((s.goalBin = some 0 ∧
        (s.visited.length : ℚ) - (index : ℚ) < MIN_DISTANCE_TO_GO) →
      (evalTileIndex cfg s index).goalReached = false) ∧
    (¬(s.goalBin = some 0 ∧ (s.visited.length : ℚ) - (index : ℚ) < MIN_DISTANCE_TO_GO) →
      (s.goalBin = some ((cfg.numGoalBins : ℤ) - 1) ∧ (index : ℚ) < MIN_DISTANCE_TO_GO) →
      (evalTileIndex cfg s index).goalReached = false) ∧
    (¬(s.goalBin = some 0 ∧ (s.visited.length : ℚ) - (index : ℚ) < MIN_DISTANCE_TO_GO) →
      ¬(s.goalBin = some ((cfg.numGoalBins : ℤ) - 1) ∧ (index : ℚ) < MIN_DISTANCE_TO_GO) →
      some ⌊((s.visited.length : ℚ) - (index : ℚ)) /
        ((s.visited.length : ℚ) / (cfg.numGoalBins : ℚ))⌋ = s.goalBin →
      (evalTileIndex cfg s index).goalReached = true) ∧
    (¬(s.goalBin = some 0 ∧ (s.visited.length : ℚ) - (index : ℚ) < MIN_DISTANCE_TO_GO) →
      ¬(s.goalBin = some ((cfg.numGoalBins : ℤ) - 1) ∧ (index : ℚ) < MIN_DISTANCE_TO_GO) →
      ¬(some ⌊((s.visited.length : ℚ) - (index : ℚ)) /
        ((s.visited.length : ℚ) / (cfg.numGoalBins : ℚ))⌋ = s.goalBin) →
      (evalTileIndex cfg s index).goalReached = s.goalReached) := by
  simp only [evalTileIndex]
  refine ⟨?_, ?_, ?_, ?_⟩
  · intro h1
    rw [if_pos h1]
  · intro h1 h2
    rw [if_neg h1, if_pos h2]
  · intro h1 h2 h3
    rw [if_neg h1, if_neg h2, if_pos h3]
  · intro h1 h2 h3
    rw [if_neg h1, if_neg h2, if_neg h3]

theorem eval_tile_index_spec_witness :
    ¬(sGoal.goalBin = some 0 ∧
        (sGoal.visited.length : ℚ) - ((19 : ℕ) : ℚ) < MIN_DISTANCE_TO_GO) ∧
    ¬(sGoal.goalBin = some ((cfgSparse.numGoalBins : ℤ) - 1) ∧
        ((19 : ℕ) : ℚ) < MIN_DISTANCE_TO_GO) ∧
    some ⌊((sGoal.visited.length : ℚ) - ((19 : ℕ) : ℚ)) /
        ((sGoal.visited.length : ℚ) / (cfgSparse.numGoalBins : ℚ))⌋ = sGoal.goalBin ∧
    (evalTileIndex cfgSparse sGoal 19).goalReached = true :=
  ⟨by with_unfolding_all decide, by with_unfolding_all decide, by with_unfolding_all decide,
    (eval_tile_index_spec cfgSparse sGoal 19).2.2.1 (by with_unfolding_all decide)
      (by with_unfolding_all decide) (by with_unfolding_all decide)⟩

theorem rewardCore_done_inbounds (cfg : Config) (s : EnvState) (pos : ℚ × ℚ)
    (hin : ¬(cfg.playfield < |pos.1| ∨ cfg.playfield < |pos.2|)) :
    (rewardCore cfg s true pos).done =
      ((decide (s.tileVisitedCount = s.visited.length) || s.newLap) ||
        (cfg.sparseRewards && s.goalReached)) := by
  have hoob : decide (cfg.playfield < absQ pos.1 ∨ cfg.playfield < absQ pos.2) = false := by
    rw [absQ_eq_abs, absQ_eq_abs]
    exact decide_eq_false hin
  cases hsr : cfg.sparseRewards <;> cases hgr : s.goalReached <;>
    simp [rewardCore, sparsePhase, hoob, hsr, hgr]

/-- A sparse-mode state mid-episode (1 of 3 tiles visited, no lap signal) whose
goal-reached flag is set. -/
def sPart : EnvState :=
  { visited := [true, false, false], reward := 0, prevReward := 0, tileVisitedCount := 1,
    newLap := false, overlap := [], accumulatedRewards := 0, goalReached := true,
    goalBin := some 5 }

/-- Counterexample to C4 as stated: in sparse mode a step can return done = True
as a non-failure (the car is in bounds and step_reward is not the -100 penalty)
with neither `tile_visited_count == len(track)` nor the lap-complete signal:
the sparse goal-reached release also ends the episode. -/
theorem sparse_goal_done_cex :
    (rewardPhase cfgSparse sPart true (0, 0)).done = true ∧
    sPart.tileVisitedCount ≠ sPart.visited.length ∧
    sPart.newLap = false ∧
    ¬(cfgSparse.playfield < |((0 : ℚ), (0 : ℚ)).1| ∨
      cfgSparse.playfield < |((0 : ℚ), (0 : ℚ)).2|) ∧
    (rewardPhase cfgSparse sPart true (0, 0)).stepReward ≠ -100 := by
  refine ⟨by with_unfolding_all decide, by decide, rfl,
    by with_unfolding_all decide, by with_unfolding_all decide⟩

/-- C4 amended: for a step with an action applied and the car in bounds, the
step returns done = True exactly when `tile_visited_count == len(track)`, or
the lap-complete signal has fired, or (sparse mode only) the goal-reached
signal is set; and a contact-begin raises the lap-complete signal exactly when
it first-visits tile 0 with the updated visited fraction above the threshold
(the signal, once raised, is never cleared by later contacts). -/
theorem success_termination_spec (cfg : Config) (s : EnvState) (pos : ℚ × ℚ)
    (sc : EnvState) (i : ℕ)
    (hin : ¬(cfg.playfield < |pos.1| ∨ cfg.playfield < |pos.2|)) :
    ((rewardPhase cfg s true pos).done = true ↔
      (s.tileVisitedCount = s.visited.length ∨ s.newLap = true ∨
        (cfg.sparseRewards = true ∧ s.goalReached = true))) ∧
    ((contactBegin cfg sc i).newLap = true ↔
      (sc.newLap = true ∨ (i = 0 ∧ sc.visited.getD i false = false ∧
        cfg.lapCompletePercent <
          ((sc.tileVisitedCount + 1 : ℕ) : ℚ) / (sc.visited.length : ℚ)))) := by
  constructor
  · rw [rewardPhase_done, rewardCore_done_inbounds cfg s pos hin]
    simp [Bool.or_eq_true, decide_eq_true_eq, Bool.and_eq_true, or_assoc]
  · cases hv : sc.visited.getD i false with
    | true =>
      rw [(contactBegin_of_visited cfg sc i hv).2.2.2]
      constructor
      · intro h
        exact Or.inl h
      · rintro (h | ⟨h1, h2, h3⟩)
        · exact h
        · exact absurd h2 (by decide)
    | false =>
      rw [(contactBegin_of_unvisited cfg sc i hv).2.2.2]
      by_cases hc : (i = 0 ∧ cfg.lapCompletePercent <
          ((sc.tileVisitedCount + 1 : ℕ) : ℚ) / ((sc.visited.set i true).length : ℚ))
      · rw [if_pos hc]
        have hc2 : cfg.lapCompletePercent <
            ((sc.tileVisitedCount + 1 : ℕ) : ℚ) / (sc.visited.length : ℚ) := by
          have hx := hc.2
          rwa [List.length_set] at hx
        constructor
        · intro _
          exact Or.inr ⟨hc.1, rfl, hc2⟩
        · intro _
          rfl
      · rw [if_neg hc]
        constructor
        · intro h
          exact Or.inl h
        · rintro (h | ⟨h1, h2, h3⟩)
          · exact h
          · refine absurd ⟨h1, ?_⟩ hc
            rw [List.length_set]
            exact h3

/-- A dense-mode completed state: the single tile is visited. -/
def sDone : EnvState := { sBase with visited := [true], tileVisitedCount := 1 }

theorem success_termination_spec_witness :
    ¬(cfgBase.playfield < |((0 : ℚ), (0 : ℚ)).1| ∨
      cfgBase.playfield < |((0 : ℚ), (0 : ℚ)).2|) ∧
    ((rewardPhase cfgBase sDone true ((0 : ℚ), (0 : ℚ))).done = true ↔
      (sDone.tileVisitedCount = sDone.visited.length ∨ sDone.newLap = true ∨
        (cfgBase.sparseRewards = true ∧ sDone.goalReached = true))) :=
  ⟨by with_unfolding_all decide,
    (success_termination_spec cfgBase sDone ((0 : ℚ), (0 : ℚ)) sBase 0
      (by with_unfolding_all decide)).1⟩

theorem runContacts_nil (cfg : Config) (s : EnvState) : runContacts cfg s [] = s := rfl

theorem runContacts_cons (cfg : Config) (s : EnvState) (a : ℕ) (t : List ℕ) :
    runContacts cfg s (a :: t) = runContacts cfg (contactBegin cfg s a) t := rfl

theorem contactBegin_length (cfg : Config) (s : EnvState) (i : ℕ) :
    (contactBegin cfg s i).visited.length = s.visited.length := by
  cases hv : s.visited.getD i false with
  | true => rw [(contactBegin_of_visited cfg s i hv).1]
  | false => rw [(contactBegin_of_unvisited cfg s i hv).1, List.length_set]

theorem contactBegin_mono (cfg : Config) (s : EnvState) (i j : ℕ)
    (h : s.visited.getD j false = true) :
    (contactBegin cfg s i).visited.getD j false = true := by
  cases hv : s.visited.getD i false with
  | true =>
    rw [(contactBegin_of_visited cfg s i hv).1]
    exact h
  | false =>
    rw [(contactBegin_of_unvisited cfg s i hv).1]
    by_cases hij : i = j
    · subst hij
      rw [hv] at h
      exact absurd h (by decide)
    · rw [list_getD_set_ne s.visited i j true hij]
      exact h

theorem contactBegin_visits (cfg : Config) (s : EnvState) (i : ℕ)
    (hi : i < s.visited.length) :
    (contactBegin cfg s i).visited.getD i false = true := by
  cases hv : s.visited.getD i false with
  | true =>
    rw [(contactBegin_of_visited cfg s i hv).1]
    exact hv
  | false =>
    rw [(contactBegin_of_unvisited cfg s i hv).1]
    exact list_getD_set_self s.visited i true hi

theorem runContacts_length (cfg : Config) (is : List ℕ) :
    ∀ s : EnvState, (runContacts cfg s is).visited.length = s.visited.length := by
  induction is with
  | nil => intro s; rfl
  | cons a t ih =>
    intro s
    rw [runContacts_cons, ih (contactBegin cfg s a), contactBegin_length]

theorem runContacts_mono (cfg : Config) (is : List ℕ) (j : ℕ) :
    ∀ s : EnvState, s.visited.getD j false = true →
      (runContacts cfg s is).visited.getD j false = true := by
  induction is with
  | nil =>
    intro s h
    exact h
  | cons a t ih =>
    intro s h
    rw [runContacts_cons]
    exact ih _ (contactBegin_mono cfg s a j h)

theorem runContacts_visits (cfg : Config) (is : List ℕ) (i : ℕ) :
    ∀ s : EnvState, i ∈ is → i < s.visited.length →
      (runContacts cfg s is).visited.getD i false = true := by
  induction is with
  | nil =>
    intro s hmem _
    exact absurd hmem (List.not_mem_nil i)
  | cons a t ih =>
    intro s hmem hlen
    rw [runContacts_cons]
    by_cases hai : a = i
    · subst hai
      exact runContacts_mono cfg t a _ (contactBegin_visits cfg s a hlen)
    · rcases List.mem_cons.mp hmem with he | hmem'
      · exact absurd he.symm hai
      · exact ih _ hmem' (by rw [contactBegin_length]; exact hlen)

theorem contactBegin_reward_count (cfg : Config) (s : EnvState) (i : ℕ)
    (hi : i < s.visited.length) :
    (contactBegin cfg s i).reward = s.reward + (1000 / (s.visited.length : ℚ)) *
      (((contactBegin cfg s i).visited.count true : ℚ) - (s.visited.count true : ℚ)) := by
  cases hv : s.visited.getD i false with
  | true =>
    obtain ⟨e1, e2, _, _⟩ := contactBegin_of_visited cfg s i hv
    rw [e1, e2]
    ring
  | false =>
    obtain ⟨e1, e2, _, _⟩ := contactBegin_of_unvisited cfg s i hv
    rw [e1, e2, list_count_set_true s.visited i hi hv]
    push_cast
    ring

theorem runContacts_reward (cfg : Config) (is : List ℕ) :
    ∀ s : EnvState, (∀ j, j ∈ is → j < s.visited.length) →
      (runContacts cfg s is).reward = s.reward + (1000 / (s.visited.length : ℚ)) *
        (((runContacts cfg s is).visited.count true : ℚ) - (s.visited.count true : ℚ)) := by
  induction is with
  | nil =>
    intro s _
    rw [runContacts_nil]
    ring
  | cons a t ih =>
    intro s hall
    have ha : a < s.visited.length := hall a (List.mem_cons_self a t)
    rw [runContacts_cons]
    have hlen : (contactBegin cfg s a).visited.length = s.visited.length :=
      contactBegin_length cfg s a
    have ih' := ih (contactBegin cfg s a)
      (fun j hj => by rw [hlen]; exact hall j (List.mem_cons_of_mem a hj))
    rw [ih', hlen, contactBegin_reward_count cfg s a ha]
    ring

/-- C1: on a contact-begin with an unvisited tile, the tile becomes visited,
`tile_visited_count` rises by exactly 1 and the running reward rises by exactly
`1000 / len(track)`; a contact-begin with an already visited tile changes
neither the reward nor the count nor any visitation flag; and starting from a
fresh all-unvisited track, any contact sequence that touches every tile at
least once raises the reward by exactly 1000 in total (each tile contributes
`1000/N` exactly once, and `N * (1000/N) = 1000` exactly over the rationals,
hence within floating-point tolerance in the float code). -/
theorem tile_visitation_reward_spec (cfg : Config) (s : EnvState) (i : ℕ)
    (hi : i < s.visited.length)
    (s0 : EnvState) (is : List ℕ) (hN : 0 < s0.visited.length)
    (h0 : s0.visited = List.replicate s0.visited.length false)
    (hall : ∀ j, j < s0.visited.length → j ∈ is)
    (hlt : ∀ j, j ∈ is → j < s0.visited.length) :
    (s.visited.getD i false = false →
      (contactBegin cfg s i).visited.getD i false = true ∧
      (contactBegin cfg s i).tileVisitedCount = s.tileVisitedCount + 1 ∧
      (contactBegin cfg s i).reward = s.reward + 1000 / (s.visited.length : ℚ)) ∧
    (s.visited.getD i false = true →
      (contactBegin cfg s i).visited = s.visited ∧
      (contactBegin cfg s i).reward = s.reward ∧
      (contactBegin cfg s i).tileVisitedCount = s.tileVisitedCount) ∧
    (runContacts cfg s0 is).reward = s0.reward + 1000 := by
  refine ⟨?_, ?_, ?_⟩
  · intro hv
    obtain ⟨e1, e2, e3, _⟩ := contactBegin_of_unvisited cfg s i hv
    refine ⟨?_, e3, e2⟩
    rw [e1]
    exact list_getD_set_self s.visited i true hi
  · intro hv
    obtain ⟨e1, e2, e3, _⟩ := contactBegin_of_visited cfg s i hv
    exact ⟨e1, e2, e3⟩
  · have hfin : ∀ j, j < (runContacts cfg s0 is).visited.length →
        (runContacts cfg s0 is).visited.getD j false = true := by
      intro j hj
      rw [runContacts_length] at hj
      exact runContacts_visits cfg is j s0 (hall j hj) hj
    have hcount : (runContacts cfg s0 is).visited.count true = s0.visited.length := by
      rw [list_count_true_of_all _ hfin, runContacts_length]
    have hzero : s0.visited.count true = 0 := by
      rw [h0]
      exact list_count_true_replicate _
    have hne : ((s0.visited.length : ℚ)) ≠ 0 := by
      exact_mod_cast Nat.pos_iff_ne_zero.mp hN
    rw [runContacts_reward cfg is s0 hlt, hcount, hzero]
    push_cast
    field_simp

/-- A fresh two-tile episode state with no tile visited. -/
def sTwo : EnvState :=
  { visited := [false, false], reward := 0, prevReward := 0, tileVisitedCount := 0,
    newLap := false, overlap := [], accumulatedRewards := 0, goalReached := false,
    goalBin := none }

theorem tile_visitation_reward_spec_witness :
    (0 : ℕ) < sTwo.visited.length ∧
    sTwo.visited = List.replicate sTwo.visited.length false ∧
    (∀ j, j < sTwo.visited.length → j ∈ [0, 1]) ∧
    (∀ j, j ∈ [0, 1] → j < sTwo.visited.length) ∧
    (runContacts cfgBase sTwo [0, 1]).reward = sTwo.reward + 1000 :=
  ⟨by decide, by decide, by decide, by decide,
    (tile_visitation_reward_spec cfgBase sTwo 0 (by decide) sTwo [0, 1] (by decide)
      (by decide) (by decide) (by decide)).2.2⟩

theorem list_getD_true_lt (l : List Bool) (j : ℕ) (h : l.getD j false = true) :
    j < l.length := by
  by_contra hc
  rw [List.getD_eq_default l false (Nat.le_of_not_lt hc)] at h
  exact absurd h (by decide)

theorem cycIdx_lt (n : ℕ) (x : ℤ) (h : 0 < n) : cycIdx n x < n := by
  unfold cycIdx
  have hn : (0 : ℤ) < (n : ℤ) := by exact_mod_cast h
  have h1 : x % (n : ℤ) < (n : ℤ) := Int.emod_lt_of_pos x hn
  have h2 : 0 ≤ x % (n : ℤ) := Int.emod_nonneg x (by omega)
  omega

theorem dilFun_length (i : ℕ) (acc : List Bool) (neg : ℕ) :
    (dilFun i acc neg).length = acc.length := by
  simp only [dilFun]
  exact List.length_set acc _ _

theorem dilFun_mono (i : ℕ) (acc : List Bool) (neg : ℕ) (j : ℕ)
    (h : acc.getD j false = true) :
    (dilFun i acc neg).getD j false = true := by
  have hjlen : j < acc.length := list_getD_true_lt acc j h
  simp only [dilFun]
  by_cases hj : cycIdx acc.length ((i : ℤ) - (neg : ℤ)) = j
  · rw [hj, list_getD_set_self _ _ _ hjlen, h]
    rfl
  · rw [list_getD_set_ne _ _ _ _ hj]
    exact h

theorem dilFun_sets (i : ℕ) (acc : List Bool) (neg : ℕ)
    (h : acc.getD i false = true) :
    (dilFun i acc neg).getD (cycIdx acc.length ((i : ℤ) - (neg : ℤ))) false = true := by
  have hlen : 0 < acc.length := Nat.lt_of_le_of_lt (Nat.zero_le i) (list_getD_true_lt acc i h)
  simp only [dilFun]
  rw [list_getD_set_self _ _ _ (cycIdx_lt _ _ hlen), h]
  simp

theorem foldl_dilFun_length (i : ℕ) (l : List ℕ) :
    ∀ acc : List Bool, (l.foldl (dilFun i) acc).length = acc.length := by
  induction l with
  | nil => intro acc; rfl
  | cons a t ih =>
    intro acc
    rw [List.foldl_cons, ih, dilFun_length]

theorem foldl_dilFun_mono (i : ℕ) (l : List ℕ) (j : ℕ) :
    ∀ acc : List Bool, acc.getD j false = true →
      (l.foldl (dilFun i) acc).getD j false = true := by
  induction l with
  | nil => intro acc h; exact h
  | cons a t ih =>
    intro acc h
    rw [List.foldl_cons]
    exact ih _ (dilFun_mono i acc a j h)

theorem foldl_dilFun_sets (i k : ℕ) (l : List ℕ) :
    ∀ acc : List Bool, k ∈ l → acc.getD i false = true →
      (l.foldl (dilFun i) acc).getD (cycIdx acc.length ((i : ℤ) - (k : ℤ))) false = true := by
  induction l with
  | nil =>
    intro acc hmem _
    exact absurd hmem (List.not_mem_nil k)
  | cons a t ih =>
    intro acc hmem hi
    rw [List.foldl_cons]
    by_cases hak : a = k
    · subst hak
      exact foldl_dilFun_mono i t _ _ (dilFun_sets i acc a hi)
    · rcases List.mem_cons.mp hmem with he | hmem'
      · exact absurd he.symm hak
      · have hrec := ih (dilFun i acc a) hmem' (dilFun_mono i acc a i hi)
        rwa [dilFun_length] at hrec

theorem dilateStep_length (acc : List Bool) (i : ℕ) :
    (dilateStep acc i).length = acc.length := foldl_dilFun_length i _ acc

theorem dilateStep_mono (acc : List Bool) (i j : ℕ) (h : acc.getD j false = true) :
    (dilateStep acc i).getD j false = true := foldl_dilFun_mono i _ j acc h

theorem dilateStep_sets (acc : List Bool) (i k : ℕ) (hk : k < BORDER_MIN_COUNT)
    (h : acc.getD i false = true) :
    (dilateStep acc i).getD (cycIdx acc.length ((i : ℤ) - (k : ℤ))) false = true :=
  foldl_dilFun_sets i k _ acc (List.mem_range.mpr hk) h

theorem foldl_dilateStep_mono (l : List ℕ) (j : ℕ) :
    ∀ acc : List Bool, acc.getD j false = true →
      (l.foldl dilateStep acc).getD j false = true := by
  induction l with
  | nil => intro acc h; exact h
  | cons a t ih =>
    intro acc h
    rw [List.foldl_cons]
    exact ih _ (dilateStep_mono acc a j h)

theorem foldl_dilateStep_sets (l : List ℕ) (i k : ℕ) (hk : k < BORDER_MIN_COUNT) :
    ∀ acc : List Bool, i ∈ l → acc.getD i false = true →
      (l.foldl dilateStep acc).getD (cycIdx acc.length ((i : ℤ) - (k : ℤ))) false = true := by
  induction l with
  | nil =>
    intro acc hmem _
    exact absurd hmem (List.not_mem_nil i)
  | cons a t ih =>
    intro acc hmem hi
    rw [List.foldl_cons]
    by_cases hai : a = i
    · subst hai
      exact foldl_dilateStep_mono t _ _ (dilateStep_sets acc a k hk hi)
    · rcases List.mem_cons.mp hmem with he | hmem'
      · exact absurd he.symm hai
      · have hrec := ih (dilateStep acc a) hmem' (dilateStep_mono acc a i hi)
        rwa [dilateStep_length] at hrec

theorem borderFlags_init_getD (betas : List ℚ) (t : ℚ) (i : ℕ) (hi : i < betas.length) :
    ((List.range betas.length).map (borderDetectAt betas t)).getD i false
      = borderDetectAt betas t i := by
  rw [List.getD_eq_getElem _ _ (by simpa using hi)]
  simp

/-- Betas of an 8-tile track whose detection pass (threshold 1/2) flags exactly
tile 4: the cyclic beta deltas are -4, 1, 1, 1, 1, 0, 0, 0, so only the window
ending at index 4 has four large same-sign deltas. -/
def betasCex : List ℚ := [0, 1, 2, 3, 4, 4, 4, 4]

/-- Counterexample to C7 as stated: the dilation pass turns the isolated
detection flag at tile 4 into flags on tiles 1..4, and the resulting final
array violates the claimed invariant: tile 1 is flagged but tile 0 (inside its
backward window) is not.  The final array can satisfy the claimed invariant
only when it is all-false or all-true, since the invariant forces flaggedness
to propagate backward around the whole cycle. -/
theorem border_dilation_cex :
    borderFlags betasCex (1 / 2) = [false, true, true, true, true, false, false, false] ∧
    ¬ dilationInvariant (borderFlags betasCex (1 / 2)) := by
  constructor
  · with_unfolding_all decide
  · with_unfolding_all decide

/-- C7 amended: the dilation invariant holds of the detection flags, not of the
final array: for every tile index i flagged by the detection pass, every tile
index in the cyclic window [i - BORDER_MIN_COUNT + 1, i] is flagged in the
final border array (the backward dilation covers the full lookback span).  The
length hypothesis reflects that the source's Python negative indexing equals
the cyclic index only for tracks of at least BORDER_MIN_COUNT tiles. -/
theorem border_dilation_spec (betas : List ℚ) (t : ℚ) (i k : ℕ)
    (hlen : BORDER_MIN_COUNT ≤ betas.length) (hi : i < betas.length)
    (hk : k < BORDER_MIN_COUNT)
    (hdet : borderDetectAt betas t i = true) :
    (borderFlags betas t).getD (cycIdx betas.length ((i : ℤ) - (k : ℤ))) false = true := by
  unfold borderFlags
  have hinit : ((List.range betas.length).map (borderDetectAt betas t)).getD i false
      = true := by
    rw [borderFlags_init_getD betas t i hi]
    exact hdet
  have hres := foldl_dilateStep_sets (List.range betas.length) i k hk
    ((List.range betas.length).map (borderDetectAt betas t)) (List.mem_range.mpr hi) hinit
  rwa [List.length_map, List.length_range] at hres

theorem border_dilation_spec_witness :
    BORDER_MIN_COUNT ≤ betasCex.length ∧ (4 : ℕ) < betasCex.length ∧
    (1 : ℕ) < BORDER_MIN_COUNT ∧ borderDetectAt betasCex (1 / 2) 4 = true ∧
    (borderFlags betasCex (1 / 2)).getD (cycIdx betasCex.length ((4 : ℤ) - (1 : ℤ)))
      false = true :=
  ⟨by decide, by decide, by decide, by with_unfolding_all decide,
    border_dilation_spec betasCex (1 / 2) 4 1 (by decide) (by decide) (by decide)
      (by with_unfolding_all decide)⟩
